import Mathlib

/-!
Verification of the field-sync engine of gh-project-toolkit.

This file gives a shallow embedding, in Lean 4, of the Go code under
`internal/tools/sync_fields/mapping.go`, `internal/github` (the project-URL
parser and the GraphQL client's update/fetch operations), and proves or
refutes the frozen specification claims about it.

Modelling conventions:
* Go strings are Lean `String`; the byte-level operations the code uses
  (`strings.Split` with a one-character separator, `strings.TrimSpace`,
  `strings.Trim(s, "/")`) are defined below over `String.data`.
* `time.Time` values stored in date fields are modelled as an abstract
  day index `Nat`; `time.Time.Equal` is modelled as equality on that index.
* Go `nil`-able pointers (`*time.Time`, `*string`) are `Option`.
* Fallible Go functions returning `(T, error)` are `Except String T`.
* Effectful calls against the GitHub client are modelled by passing the
  client's behaviour in as explicit function arguments, and the engine
  returns the list of update calls it performed (its observable trace)
  next to its `error` result.
-/

/-- Models Go `FieldValue` / `ProjectFieldValue` (internal/github types):
a struct of two nil-able pointers `Date *time.Time` and `Text *string`. -/
structure FieldValue where
  date : Option Nat
  text : Option String
deriving DecidableEq, Repr

/-- Models Go `ProjectField`: `{ID string; Name string; Value FieldValue}`. -/
structure ProjectField where
  id : String
  name : String
  value : FieldValue
deriving DecidableEq, Repr

/-- Models Go `FieldMapping`: `{SourceField, TargetField string}`
(internal/tools/sync_fields/mapping.go). -/
structure FieldMapping where
  sourceField : String
  targetField : String
deriving DecidableEq, Repr

/-- Models `fieldsEqual` (mapping.go:239-247): if both `Date` pointers are
non-nil compare the dates; otherwise if both `Text` pointers are non-nil
compare the strings; otherwise not equal. -/
def fieldsEqual (a b : ProjectField) : Bool :=
  match a.value.date, b.value.date with
  | some d1, some d2 => d1 == d2
  | _, _ =>
    match a.value.text, b.value.text with
    | some t1, some t2 => t1 == t2
    | _, _ => false

/-- Models Go `strings.Split(s, sep)` for a one-character separator `sep`,
on the character list of the string: `Split("", sep) = [""]`, and each
occurrence of the separator starts a new part. -/
def splitChar (sep : Char) : List Char → List (List Char)
  | [] => [[]]
  | c :: cs =>
    match splitChar sep cs with
    | [] => [[]]
    | p :: ps => if c = sep then [] :: p :: ps else (c :: p) :: ps

/-- Splits a Go string on a one-character separator, as `strings.Split`. -/
def goSplit (sep : Char) (s : String) : List String :=
  (splitChar sep s.data).map String.mk

/-- Whitespace predicate of Go `unicode.IsSpace` restricted to the ASCII
range (space, tab, newline, carriage return, vertical tab, form feed);
the field names the tool handles are ASCII. -/
def goIsSpace (c : Char) : Bool :=
  c = ' ' || c = '\t' || c = '\n' || c = '\r' || c = '\x0b' || c = '\x0c'

/-- Models Go `strings.TrimSpace`: drop whitespace from both ends. -/
def trimSpace (s : String) : String :=
  String.mk (((s.data.dropWhile goIsSpace).reverse.dropWhile goIsSpace).reverse)

/-- Models `ParseFieldMappings` (mapping.go:13-26): split each raw string on
`=`; if the split does not have exactly 2 parts fail with
`invalid field mapping format: <s>`; otherwise trim both parts and keep
input order.  The Go loop returns the error of the first invalid string. -/
def ParseFieldMappings : List String → Except String (List FieldMapping)
  | [] => Except.ok []
  | m :: rest =>
    match goSplit '=' m with
    | [a, b] =>
      match ParseFieldMappings rest with
      | Except.ok ms => Except.ok (⟨trimSpace a, trimSpace b⟩ :: ms)
      | Except.error e => Except.error e
    | _ => Except.error ("invalid field mapping format: " ++ m)

/-- Models `findCommonIssues` (mapping.go:169-183): build a
`map[string]bool` from the target issues, then keep the source issues that
are in the map.  The Go map is modelled as its lookup function, built by
folding insertions in list order. -/
def findCommonIssues (sourceIssues targetIssues : List String) : List String :=
  let issueMap : String → Bool :=
    targetIssues.foldl (fun m issue => fun k => if k = issue then true else m k)
      (fun _ => false)
  sourceIssues.filter issueMap

/-- Record of one call of `client.UpdateProjectField` made by the engine:
its arguments `(targetProjectID, issueURL, field, dryRun)`.  The engine
definitions below return the list of such calls they perform, in order,
as their observable trace. -/
structure UpdateCall where
  projectID : String
  issueURL : String
  field : ProjectField
  dryRun : Bool
deriving DecidableEq, Repr

/-- Models the `targetFieldMap` built in `processBatches` (mapping.go:153-156):
`map[string]github.ProjectField` populated by iterating the target fields in
order, so for duplicate names the last write wins.  The Go map is modelled
as its lookup function. -/
def targetFieldLookup (targetFields : List ProjectField) : String → Option ProjectField :=
  targetFields.foldl (fun m f => fun k => if f.name = k then some f else m k)
    (fun _ => none)

/-- Candidate target field built in `applyFieldMappings` (mapping.go:215-218):
name is the mapping's target name, value is the source field's value, and
the `ID` field is left at its Go zero value `""`. -/
def candidateField (m : FieldMapping) (sourceField : ProjectField) : ProjectField :=
  ⟨"", m.targetField, sourceField.value⟩

/-- Inner loop of `applyFieldMappings` over the issue's source fields
(mapping.go:212-233) for one mapping: skip fields whose name differs; on a
name match, skip (continue scanning) when the target already has an equal
value, otherwise call `UpdateProjectField` once and stop (`break`); an
update error stops with the wrapped error.  Returns the update-call trace
and the Go return value. -/
def applyOneMapping (upd : String → String → ProjectField → Bool → Except String Unit)
    (dryRun : Bool) (targetProjectID issueURL : String)
    (targetFieldMap : String → Option ProjectField) (m : FieldMapping) :
    List ProjectField → List UpdateCall × Except String Unit
  | [] => ([], Except.ok ())
  | sf :: rest =>
    if sf.name = m.sourceField then
      let tf := candidateField m sf
      let skip :=
        match targetFieldMap m.targetField with
        | some existing => fieldsEqual existing tf
        | none => false
      if skip then
        applyOneMapping upd dryRun targetProjectID issueURL targetFieldMap m rest
      else
        match upd targetProjectID issueURL tf dryRun with
        | Except.ok _ => ([⟨targetProjectID, issueURL, tf, dryRun⟩], Except.ok ())
        | Except.error e =>
          ([⟨targetProjectID, issueURL, tf, dryRun⟩],
            Except.error ("failed to update field for " ++ issueURL ++ ": " ++ e))
    else
      applyOneMapping upd dryRun targetProjectID issueURL targetFieldMap m rest

/-- Models `applyFieldMappings` (mapping.go:210-236): iterate the mappings in
order, running the inner source-field loop for each; the first update error
aborts with that error. -/
def applyFieldMappings (upd : String → String → ProjectField → Bool → Except String Unit)
    (dryRun : Bool) (targetProjectID issueURL : String)
    (sourceFields : List ProjectField) (targetFieldMap : String → Option ProjectField) :
    List FieldMapping → List UpdateCall × Except String Unit
  | [] => ([], Except.ok ())
  | m :: ms =>
    match applyOneMapping upd dryRun targetProjectID issueURL targetFieldMap m sourceFields with
    | (calls, Except.error e) => (calls, Except.error e)
    | (calls, Except.ok _) =>
      match applyFieldMappings upd dryRun targetProjectID issueURL sourceFields targetFieldMap ms with
      | (calls2, r) => (calls ++ calls2, r)

/-- Capability surface of `github.Client` as used by `processBatches`:
per-issue field-value fetch, issue-title lookup, and field update, each
modelled as a pure function describing the client's response. -/
structure EngineClient where
  getFieldValues : String → String → Except String (List ProjectField)
  getIssueTitle : String → Except String String
  update : String → String → ProjectField → Bool → Except String Unit

/-- Models `getFieldValuesForBatch` (mapping.go:186-207): fetch source and
target field values for every issue of the batch, in batch order, failing
fatally on the first fetch error.  The two Go result maps are modelled as
the association list of per-issue entries `(issueURL, sourceFields,
targetFields)` in batch order. -/
def getFieldValuesForBatch (c : EngineClient) (sourceProjectID targetProjectID : String) :
    List String → Except String (List (String × List ProjectField × List ProjectField))
  | [] => Except.ok []
  | u :: rest =>
    match c.getFieldValues sourceProjectID u with
    | Except.error e =>
      Except.error ("failed to get source field values for " ++ u ++ ": " ++ e)
    | Except.ok sf =>
      match c.getFieldValues targetProjectID u with
      | Except.error e =>
        Except.error ("failed to get target field values for " ++ u ++ ": " ++ e)
      | Except.ok tf =>
        match getFieldValuesForBatch c sourceProjectID targetProjectID rest with
        | Except.error e => Except.error e
        | Except.ok entries => Except.ok ((u, sf, tf) :: entries)

/-- Per-issue processing loop of `processBatches` (mapping.go:140-162) over
the fetched batch entries: the issue-title lookup is only logged (a failure
falls back to a placeholder and has no effect on the trace), then the
field mappings are applied; an error aborts the whole run. -/
def processEntries (c : EngineClient) (dryRun : Bool) (targetProjectID : String)
    (mappings : List FieldMapping) :
    List (String × List ProjectField × List ProjectField) →
    List UpdateCall × Except String Unit
  | [] => ([], Except.ok ())
  | (u, sf, tf) :: rest =>
    match applyFieldMappings c.update dryRun targetProjectID u sf (targetFieldLookup tf) mappings with
    | (calls, Except.error e) => (calls, Except.error e)
    | (calls, Except.ok _) =>
      match processEntries c dryRun targetProjectID mappings rest with
      | (calls2, r) => (calls ++ calls2, r)

/-- Batch size fixed in `processBatches` (mapping.go:125). -/
def batchSize : Nat := 10

/-- Batch loop of `processBatches` (mapping.go:126-163), written with an
explicit fuel argument standing for the loop counter bound of the Go
`for i := 0; i < len(issues); i += batchSize` loop; `fuel = issues.length`
always suffices since every iteration consumes at least one issue.  Each
iteration fetches the whole batch (a fetch error is fatal before any of
the batch's updates), then processes the batch's issues in order. -/
def processChunks (c : EngineClient) (dryRun : Bool)
    (sourceProjectID targetProjectID : String) (mappings : List FieldMapping) :
    Nat → List String → List UpdateCall × Except String Unit
  | 0, _ => ([], Except.ok ())
  | _ + 1, [] => ([], Except.ok ())
  | fuel + 1, issues@(_ :: _) =>
    let batch := issues.take batchSize
    match getFieldValuesForBatch c sourceProjectID targetProjectID batch with
    | Except.error e => ([], Except.error e)
    | Except.ok entries =>
      match processEntries c dryRun targetProjectID mappings entries with
      | (calls, Except.error e) => (calls, Except.error e)
      | (calls, Except.ok _) =>
        match processChunks c dryRun sourceProjectID targetProjectID mappings fuel
            (issues.drop batchSize) with
        | (calls2, r) => (calls ++ calls2, r)

/-- Models `processBatches` (mapping.go:124-166). -/
def processBatches (c : EngineClient) (dryRun : Bool)
    (sourceProjectID targetProjectID : String) (issues : List String)
    (mappings : List FieldMapping) : List UpdateCall × Except String Unit :=
  processChunks c dryRun sourceProjectID targetProjectID mappings issues.length issues

/-- Batch slices of the working issue set, exactly as taken by the Go loop
`for i := 0; i < len(issues); i += batchSize` (mapping.go:126-131): one
slice `issues[i : min(i+batchSize, len)]` per iteration, written with the
same fuel scheme as `processChunks`. -/
def batchesAux : Nat → List String → List (List String)
  | 0, _ => []
  | _ + 1, [] => []
  | fuel + 1, issues@(_ :: _) =>
    issues.take batchSize :: batchesAux fuel (issues.drop batchSize)

/-- Batches of the working issue set. -/
def batches (issues : List String) : List (List String) :=
  batchesAux issues.length issues

/-- Models Go `github.OwnerType` (`OwnerTypeUser`, `OwnerTypeOrg`). -/
inductive OwnerType where
  | user
  | org
deriving DecidableEq, Repr

/-- Models Go `github.ProjectInfo`: owner type, owner login, and project
number (`int`, so possibly zero or negative). -/
structure ProjectInfo where
  ownerType : OwnerType
  ownerLogin : String
  projectNumber : Int
deriving DecidableEq, Repr

/-- Scans for the first `://` and returns the characters after it. -/
def afterScheme : List Char → Option (List Char)
  | [] => none
  | ':' :: '/' :: '/' :: rest => some rest
  | _ :: rest => afterScheme rest

/-- Models the `Host` / `Path` extraction of `net/url.Parse` for the URL
shapes this tool receives (no userinfo, port, query or fragment): the host
is everything between `://` and the next `/`, the path is the rest; a
string without `://` is relative, with empty host and itself as path.
The rare inputs on which `url.Parse` itself errors (such as `":"`) are not
modelled; none of the claims depends on them. -/
def parseURLHostPath (s : String) : String × String :=
  match afterScheme s.data with
  | none => ("", s)
  | some rest => (String.mk (rest.takeWhile (· ≠ '/')), String.mk (rest.dropWhile (· ≠ '/')))

/-- Models Go `strings.Trim(s, "/")`: drop `/` from both ends. -/
def trimSlashes (s : String) : String :=
  String.mk (((s.data.dropWhile (· = '/')).reverse.dropWhile (· = '/')).reverse)

/-- Value of a big-endian list of decimal digit characters. -/
def digitsValue (l : List Char) : Nat :=
  l.foldl (fun a c => 10 * a + (c.toNat - 48)) 0

/-- Parses a non-empty all-digit character list to its value, as the digit
loop of `strconv.Atoi` does. -/
def digitsOf (l : List Char) : Option Nat :=
  if l = [] then none
  else if l.all Char.isDigit then some (digitsValue l) else none

/-- Models Go `strconv.Atoi`: an optional single `+` or `-` sign followed by
at least one decimal digit, otherwise an error.  (The `int` overflow error
of `Atoi` is not modelled; project numbers are small.) -/
def goAtoi (s : String) : Option Int :=
  match s.data with
  | [] => none
  | c :: rest =>
    if c = '+' then (digitsOf rest).map Int.ofNat
    else if c = '-' then (digitsOf rest).map (fun n => -(n : Int))
    else (digitsOf (c :: rest)).map Int.ofNat

/-- Models `ParseProjectURL` (internal/github/parser.go:18-60, identical to
`projecturl.Parse`): require host `github.com`; split the `/`-trimmed path
on `/` into exactly 4 segments; segment 1 selects the owner type from
`orgs`/`users`; segment 3 must be `projects`; segment 4 goes through
`strconv.Atoi`.  Error messages follow the Go code (the `Atoi` error
wrapped by `invalid project number: %w` is rendered as the offending
segment). -/
def ParseProjectURL (projectURL : String) : Except String ProjectInfo :=
  let hp := parseURLHostPath projectURL
  if hp.1 ≠ "github.com" then Except.error "not a GitHub URL"
  else
    match goSplit '/' (trimSlashes hp.2) with
    | [p0, p1, p2, p3] =>
      let withOwner : OwnerType → Except String ProjectInfo := fun ownerType =>
        if p2 ≠ "projects" then
          Except.error "invalid URL format: expected 'projects' as third component"
        else
          match goAtoi p3 with
          | none => Except.error ("invalid project number: " ++ p3)
          | some n => Except.ok ⟨ownerType, p1, n⟩
      if p0 = "orgs" then withOwner OwnerType.org
      else if p0 = "users" then withOwner OwnerType.user
      else Except.error ("invalid owner type in URL: " ++ p0)
    | _ => Except.error "invalid project URL format"

/-- URL path token for an owner type (`orgs` for organizations, `users` for
users), as produced by the canonical project-URL form. -/
def ownerToken : OwnerType → String
  | OwnerType.org => "orgs"
  | OwnerType.user => "users"

/-- Little-endian decimal digits of `n`, with explicit fuel (any
`fuel ≥ n` is enough since `n / 10 < n` for `n > 0`). -/
def natDigitsAux : Nat → Nat → List Char
  | 0, _ => []
  | fuel + 1, n => if n = 0 then [] else Nat.digitChar (n % 10) :: natDigitsAux fuel (n / 10)

/-- Decimal representation of a natural number. -/
def natRepr (n : Nat) : String :=
  if n = 0 then "0" else String.mk (natDigitsAux n n).reverse

/-- Canonical project URL built from a triple, as in the round-trip
property: `https://github.com/{orgs|users}/{login}/projects/{number}`. -/
def canonicalURL (t : OwnerType) (login : String) (n : Nat) : String :=
  "https://github.com/" ++ ownerToken t ++ "/" ++ login ++ "/projects/" ++ natRepr n

/-- Models `ProjectV2FieldConfiguration` (graphql_client.go): a date field,
a single-select field with its options `(optionID, optionName)`, or a field
of an unhandled GraphQL type. -/
inductive FieldConfigNode where
  | dateField (id name : String)
  | selectField (id name : String) (options : List (String × String))
  | otherField
deriving DecidableEq, Repr

/-- Models `ProjectV2ItemFieldValue`: a date value, a single-select value,
or a value of an unhandled GraphQL type.  `fieldID`/`fieldName` are the
field the value belongs to; the payloads are nil-able in Go. -/
inductive ItemFieldValue where
  | dateValue (fieldID fieldName : String) (date : Option Nat)
  | selectValue (fieldID fieldName : String) (name : Option String)
  | otherValue
deriving DecidableEq, Repr

/-- Field name a `ProjectV2ItemFieldValue` is attached to, for the handled
GraphQL types (the `switch fieldValue.TypeName` scans skip the rest). -/
def itemFieldValueName : ItemFieldValue → Option String
  | ItemFieldValue.dateValue _ n _ => some n
  | ItemFieldValue.selectValue _ n _ => some n
  | ItemFieldValue.otherValue => none

/-- Models `ProjectV2Item`: item id, whether its content is an `Issue`
(the `Content.TypeName == "Issue"` check), its issue URL, and its field
values. -/
structure ProjectV2Item where
  id : String
  contentIsIssue : Bool
  url : String
  fieldValues : List ItemFieldValue
deriving DecidableEq, Repr

/-- Models `ProjectV2`: project node id, field configurations, items. -/
structure ProjectV2 where
  id : String
  fields : List FieldConfigNode
  items : List ProjectV2Item
deriving DecidableEq, Repr

/-- Models the `GraphQLClient.cache` struct: the two cached projects
populated by `GetProjectFieldConfigsAndIssues`. -/
structure ClientState where
  sourceProject : Option ProjectV2
  targetProject : Option ProjectV2
deriving DecidableEq, Repr

/-- Models `getProjectFromCache` (graphql_client.go:369-377), additionally
reporting which cache slot the project came from (`true` = source): the Go
code returns a pointer into the cache, so later in-place mutation writes
back to that slot. -/
def cacheLookup (st : ClientState) (projectID : String) : Option (ProjectV2 × Bool) :=
  match st.sourceProject with
  | some sp =>
    if sp.id = projectID then some (sp, true)
    else
      match st.targetProject with
      | some tp => if tp.id = projectID then some (tp, false) else none
      | none => none
  | none =>
    match st.targetProject with
    | some tp => if tp.id = projectID then some (tp, false) else none
    | none => none

/-- Models `findProjectItem` (graphql_client.go:251-271): find the first
issue item with the given URL, and within it the first handled field value
attached to a field of the given name; error when the issue is absent. -/
def findProjectItem (p : ProjectV2) (issueURL fieldName : String) :
    Except String (String × Option ItemFieldValue) :=
  match p.items.find? (fun it => it.contentIsIssue && it.url == issueURL) with
  | none => Except.error ("issue " ++ issueURL ++ " not found in project")
  | some it =>
    Except.ok (it.id, it.fieldValues.find? (fun fv => itemFieldValueName fv == some fieldName))

/-- Models `valuesEqual` (graphql_client.go:291-307): a nil current value is
never equal; a date value compares dates when both are present; a
single-select value compares option names when both are present. -/
def valuesEqual (currentValue : Option ItemFieldValue) (field : ProjectField) : Bool :=
  match currentValue with
  | none => false
  | some (ItemFieldValue.dateValue _ _ d) =>
    match d, field.value.date with
    | some d1, some d2 => d1 == d2
    | _, _ => false
  | some (ItemFieldValue.selectValue _ _ n) =>
    match n, field.value.text with
    | some t1, some t2 => t1 == t2
    | _, _ => false
  | some ItemFieldValue.otherValue => false

/-- Models `findProjectField` (graphql_client.go:274-288): scan the field
configurations for the first date or single-select field of the given name,
returning its id and whether it is a date field. -/
def findProjectField : List FieldConfigNode → String → Except String (String × Bool)
  | [], fieldName => Except.error ("field " ++ fieldName ++ " not found in project")
  | FieldConfigNode.dateField i n :: rest, fieldName =>
    if n = fieldName then Except.ok (i, true) else findProjectField rest fieldName
  | FieldConfigNode.selectField i n _ :: rest, fieldName =>
    if n = fieldName then Except.ok (i, false) else findProjectField rest fieldName
  | FieldConfigNode.otherField :: rest, fieldName => findProjectField rest fieldName

/-- Models `githubv4.UpdateProjectV2ItemFieldValueInput` as constructed by
`constructMutationInput`: exactly one of the date or option-id payloads is
set. -/
structure MutationInput where
  projectID : String
  itemID : String
  fieldID : String
  dateValue : Option Nat
  singleSelectOptionID : Option String
deriving DecidableEq, Repr

/-- Option-id lookup of `constructMutationInput` (graphql_client.go:322-334):
the first single-select field configuration named like the field is
searched for an option with the requested name; the scan stops at that
field whether or not the option is found. -/
def findOptionID (fields : List FieldConfigNode) (fieldName optionName : String) : Option String :=
  match fields.find? (fun f =>
      match f with
      | FieldConfigNode.selectField _ n _ => n == fieldName
      | _ => false) with
  | some (FieldConfigNode.selectField _ _ opts) =>
    (opts.find? (fun o => o.2 == optionName)).map (fun o => o.1)
  | _ => none

/-- Models `constructMutationInput` (graphql_client.go:310-345): a date
payload for a date field with a date value; an option-id payload, resolved
against the cached **source** project's options, for a select field with a
text value; anything else is `unsupported field value type`.  A nil cached
source project would make the Go option scan panic; it is modelled as an
empty scan (option not found). -/
def constructMutationInput (st : ClientState) (projectID itemID fieldID : String)
    (field : ProjectField) (isDateField : Bool) : Except String MutationInput :=
  if isDateField then
    match field.value.date with
    | some d => Except.ok ⟨projectID, itemID, fieldID, some d, none⟩
    | none => Except.error "unsupported field value type"
  else
    match field.value.text with
    | some t =>
      let srcFields :=
        match st.sourceProject with
        | some p => p.fields
        | none => []
      match findOptionID srcFields field.name t with
      | some oid => Except.ok ⟨projectID, itemID, fieldID, none, some oid⟩
      | none =>
        Except.error ("single select option \"" ++ t ++ "\" not found for field \""
          ++ field.name ++ "\"")
    | none => Except.error "unsupported field value type"

/-- Per-value update of `updateCacheFieldValue` (graphql_client.go:351-362):
a handled field value whose field name matches gets the new payload. -/
def updateItemFieldValue (field : ProjectField) : ItemFieldValue → ItemFieldValue
  | ItemFieldValue.dateValue i n d =>
    if n = field.name then ItemFieldValue.dateValue i n field.value.date
    else ItemFieldValue.dateValue i n d
  | ItemFieldValue.selectValue i n t =>
    if n = field.name then ItemFieldValue.selectValue i n field.value.text
    else ItemFieldValue.selectValue i n t
  | ItemFieldValue.otherValue => ItemFieldValue.otherValue

/-- Item-list walk of `updateCacheFieldValue` (graphql_client.go:349-365):
only the first issue item with the matching URL is rewritten (the Go loop
breaks after it). -/
def updateItems (issueURL : String) (field : ProjectField) :
    List ProjectV2Item → List ProjectV2Item
  | [] => []
  | it :: rest =>
    if it.contentIsIssue && it.url == issueURL then
      { it with fieldValues := it.fieldValues.map (updateItemFieldValue field) } :: rest
    else
      it :: updateItems issueURL field rest

/-- Models `updateCacheFieldValue` (graphql_client.go:348-366). -/
def updateCacheFieldValue (p : ProjectV2) (issueURL : String) (field : ProjectField) :
    ProjectV2 :=
  { p with items := updateItems issueURL field p.items }

/-- Writes an in-place pointer mutation of a cached project back into the
cache slot it was read from; a freshly fetched project (`slot = none`) is
local to the call, so its mutation is dropped. -/
def writeBack (st : ClientState) (slot : Option Bool) (p : ProjectV2) : ClientState :=
  match slot with
  | none => st
  | some true => { st with sourceProject := some p }
  | some false => { st with targetProject := some p }

/-- Models `GraphQLClient.UpdateProjectField` (graphql_client.go:437-490).
`remote` models `fetchProject` (the GraphQL query for an uncached project)
and `mutate` models `executeFieldUpdate` (the remote mutation); the result
carries the Go return value, the cache state after the call, and the list
of remote mutations sent. -/
def UpdateProjectField (remote : String → Except String ProjectV2)
    (mutate : MutationInput → Except String Unit) (st : ClientState)
    (projectID issueURL : String) (field : ProjectField) (dryRun : Bool) :
    Except String Unit × ClientState × List MutationInput :=
  let fetched : Except String (ProjectV2 × Option Bool) :=
    match cacheLookup st projectID with
    | some (p, isSource) => Except.ok (p, some isSource)
    | none =>
      match remote projectID with
      | Except.error e => Except.error e
      | Except.ok p => Except.ok (p, none)
  match fetched with
  | Except.error e => (Except.error e, st, [])
  | Except.ok (project, slot) =>
    match findProjectItem project issueURL field.name with
    | Except.error e => (Except.error e, st, [])
    | Except.ok (itemID, currentValue) =>
      if valuesEqual currentValue field then (Except.ok (), st, [])
      else
        match findProjectField project.fields field.name with
        | Except.error e => (Except.error e, st, [])
        | Except.ok (fieldID, isDateField) =>
          if dryRun then (Except.ok (), st, [])
          else
            match constructMutationInput st project.id itemID fieldID field isDateField with
            | Except.error e => (Except.error e, st, [])
            | Except.ok input =>
              match mutate input with
              | Except.error e => (Except.error e, st, [input])
              | Except.ok _ =>
                let p2 := updateCacheFieldValue project issueURL field
                (Except.ok (), writeBack st slot p2, [input])

/-- Conversion of an item's field values to `[]ProjectField`
(graphql_client.go:622-648): handled types only, and only when the field
id is non-empty. -/
def convertItemFieldValues (fvs : List ItemFieldValue) : List ProjectField :=
  fvs.filterMap fun fv =>
    match fv with
    | ItemFieldValue.dateValue i n d => if i = "" then none else some ⟨i, n, ⟨d, none⟩⟩
    | ItemFieldValue.selectValue i n t => if i = "" then none else some ⟨i, n, ⟨none, t⟩⟩
    | ItemFieldValue.otherValue => none

/-- Models `GraphQLClient.GetProjectFieldValues` (graphql_client.go:580-651):
the project comes from the cache when its id matches, else from a remote
fetch (which does not populate the cache); the requested issue's field
values are converted.  The `fieldConfigs` parameter of the Go signature is
unused in its body and omitted here. -/
def GetProjectFieldValues (remote : String → Except String ProjectV2) (st : ClientState)
    (projectID issueURL : String) : Except String (List ProjectField) :=
  let projRes : Except String ProjectV2 :=
    match cacheLookup st projectID with
    | some (p, _) => Except.ok p
    | none => remote projectID
  match projRes with
  | Except.error e => Except.error e
  | Except.ok p =>
    match p.items.find? (fun it => it.contentIsIssue && it.url == issueURL) with
    | none => Except.error ("issue " ++ issueURL ++ " not found in project")
    | some it => Except.ok (convertItemFieldValues it.fieldValues)

/-- Condition under which the inner loop of `applyFieldMappings` performs an
update at a given source field: the name matches the mapping's source name,
and the target map does not already hold an equal value for the mapped
target name.  (Derived from mapping.go:213-225 for stating theorems about
the loop; the loop updates at the first source field satisfying it.) -/
def triggersUpdate (targetFieldMap : String → Option ProjectField) (m : FieldMapping)
    (sf : ProjectField) : Bool :=
  sf.name == m.sourceField &&
    (match targetFieldMap m.targetField with
     | some existing => ! fieldsEqual existing (candidateField m sf)
     | none => true)

/-- Field values a client answers for a project/issue pair, with a fetch
error read as the empty list (used only under hypotheses that rule the
error out). -/
def fieldsOf (c : EngineClient) (projectID issueURL : String) : List ProjectField :=
  match c.getFieldValues projectID issueURL with
  | Except.ok v => v
  | Except.error _ => []

/-- Expected parse of one raw mapping string: both `=`-parts trimmed
(meaningful only when the split has exactly two parts). -/
def mappingOfRaw (m : String) : FieldMapping :=
  match goSplit '=' m with
  | [a, b] => ⟨trimSpace a, trimSpace b⟩
  | _ => ⟨"", ""⟩

/-- Update function that always succeeds (a client whose
`UpdateProjectField` never fails). -/
def okUpdate : String → String → ProjectField → Bool → Except String Unit :=
  fun _ _ _ _ => Except.ok ()

/-- Concrete client whose update call always fails: the source project `S`
holds one date field `f` for every issue, the target holds none. -/
def exClientC1 : EngineClient :=
  ⟨fun pid _ => if pid = "S" then Except.ok [⟨"1", "f", ⟨some 1, none⟩⟩] else Except.ok [],
   fun _ => Except.ok "title",
   fun _ _ _ _ => Except.error "boom"⟩

/-- Concrete client on which every call succeeds: the source project `S`
holds one date field `f` for every issue, the target holds none. -/
def exClientC9 : EngineClient :=
  ⟨fun pid _ => if pid = "S" then Except.ok [⟨"1", "f", ⟨some 1, none⟩⟩] else Except.ok [],
   fun _ => Except.ok "title",
   fun _ _ _ _ => Except.ok ()⟩

/-- Concrete client on which every call succeeds, used for the dry-run
claim: identical behaviour to `exClientC9`. -/
def exClientC6 : EngineClient :=
  ⟨fun pid _ => if pid = "S" then Except.ok [⟨"1", "f", ⟨some 1, none⟩⟩] else Except.ok [],
   fun _ => Except.ok "title",
   fun _ _ _ _ => Except.ok ()⟩


/-!
Theorems.  Each claim of the specification is settled by one theorem below;
helper lemmas are shared.
-/

theorem issueMap_lookup (t : List String) (init : String → Bool) (k : String) :
    (t.foldl (fun m issue => fun j => if j = issue then true else m j) init) k
      = (init k || decide (k ∈ t)) := by
  induction t generalizing init with
  | nil => simp
  | cons i rest ih =>
    simp only [List.foldl_cons]
    rw [ih]
    by_cases h : k = i
    · subst h; simp
    · simp [h]

theorem findCommonIssues_eq_filter (s t : List String) :
    findCommonIssues s t = s.filter (fun i => decide (i ∈ t)) := by
  unfold findCommonIssues
  refine List.filter_congr ?_
  intro x _
  rw [issueMap_lookup]
  simp

/-- C2, as stated, is false on the code: `findCommonIssues` does not
deduplicate repeated source elements, so on the claim's own example it
returns `["u1", "u1", "u3"]`, not `["u1", "u3"]`. -/
theorem C2_counterexample :
    findCommonIssues ["u1", "u2", "u1", "u3"] ["u3", "u1"] ≠ ["u1", "u3"] := by
  decide

/-- C2 (amended): the common-issue intersection is a pure function returning
the subsequence of the first list whose elements occur in the second list,
preserving source order, with every source occurrence kept (duplicates in
the source are emitted as often as they occur); on the claim's example it
returns `["u1", "u1", "u3"]`. -/
theorem C2_findCommonIssues :
    (∀ s t : List String, findCommonIssues s t = s.filter (fun i => decide (i ∈ t))) ∧
    (∀ s t : List String, (findCommonIssues s t).Sublist s) ∧
    (∀ s t : List String, ∀ x, x ∈ findCommonIssues s t ↔ x ∈ s ∧ x ∈ t) ∧
    findCommonIssues ["u1", "u2", "u1", "u3"] ["u3", "u1"] = ["u1", "u1", "u3"] := by
  refine ⟨findCommonIssues_eq_filter, ?_, ?_, by decide⟩
  · intro s t
    rw [findCommonIssues_eq_filter]
    exact List.filter_sublist s
  · intro s t x
    rw [findCommonIssues_eq_filter]
    simp [List.mem_filter]

/-- C10: `ParseFieldMappings` never rejects empty field names: the single
string `"="` parses to the mapping with both names empty, and `"a = "`
parses to source `a` with an empty target name. -/
theorem C10_empty_names :
    ParseFieldMappings ["="] = Except.ok [⟨"", ""⟩] ∧
    ParseFieldMappings ["a = "] = Except.ok [⟨"a", ""⟩] :=
  ⟨rfl, rfl⟩

theorem ParseFieldMappings_ok_of (ms : List String)
    (h : ∀ m ∈ ms, (goSplit '=' m).length = 2) :
    ParseFieldMappings ms = Except.ok (ms.map mappingOfRaw) := by
  induction ms with
  | nil => rfl
  | cons m rest ih =>
    obtain ⟨a, b, hab⟩ := List.length_eq_two.mp (h m (by simp))
    have hrest := ih (fun x hx => h x (by simp [hx]))
    simp [ParseFieldMappings, hab, hrest, mappingOfRaw]

theorem ParseFieldMappings_error_of (ms : List String)
    (h : ∃ m ∈ ms, (goSplit '=' m).length ≠ 2) :
    ∃ e, ParseFieldMappings ms = Except.error e := by
  induction ms with
  | nil => simp at h
  | cons m rest ih =>
    by_cases hm : (goSplit '=' m).length = 2
    · obtain ⟨a, b, hab⟩ := List.length_eq_two.mp hm
      have hrest : ∃ x ∈ rest, (goSplit '=' x).length ≠ 2 := by
        rcases h with ⟨x, hx, hxl⟩
        rcases List.mem_cons.mp hx with rfl | hx2
        · exact absurd hm hxl
        · exact ⟨x, hx2, hxl⟩
      obtain ⟨e, he⟩ := ih hrest
      exact ⟨e, by simp [ParseFieldMappings, hab, he]⟩
    · refine ⟨"invalid field mapping format: " ++ m, ?_⟩
      simp only [ParseFieldMappings]
      split
      · rename_i a b heq
        rw [heq] at hm
        simp at hm
      · rfl

/-- C7: `ParseFieldMappings` splits each raw string on `=`, succeeds iff
every input splits into exactly 2 parts, trims surrounding whitespace from
both parts and preserves input order; `["a=b", " c = d "]` parses to
`[{a,b},{c,d}]` while `["a=b=c"]` and `["noequals"]` each fail with an
invalid-mapping error. -/
theorem C7_ParseFieldMappings :
    (∀ ms : List String,
        (∃ l, ParseFieldMappings ms = Except.ok l) ↔
          ∀ m ∈ ms, (goSplit '=' m).length = 2) ∧
    (∀ ms l, ParseFieldMappings ms = Except.ok l → l = ms.map mappingOfRaw) ∧
    ParseFieldMappings ["a=b", " c = d "] = Except.ok [⟨"a", "b"⟩, ⟨"c", "d"⟩] ∧
    (∃ e, ParseFieldMappings ["a=b=c"] = Except.error e) ∧
    (∃ e, ParseFieldMappings ["noequals"] = Except.error e) := by
  have key : ∀ ms : List String, ∀ l, ParseFieldMappings ms = Except.ok l →
      ∀ m ∈ ms, (goSplit '=' m).length = 2 := by
    intro ms l hl
    by_contra hno
    push_neg at hno
    obtain ⟨e, he⟩ := ParseFieldMappings_error_of ms hno
    rw [he] at hl
    cases hl
  refine ⟨?_, ?_, rfl, ⟨_, rfl⟩, ⟨_, rfl⟩⟩
  · intro ms
    constructor
    · rintro ⟨l, hl⟩
      exact key ms l hl
    · intro h
      exact ⟨_, ParseFieldMappings_ok_of ms h⟩
  · intro ms l hl
    have h2 := key ms l hl
    have := ParseFieldMappings_ok_of ms h2
    rw [this] at hl
    exact (Except.ok.inj hl).symm

/-- Witness for C7 at a concrete input: `["a=b"]` parses successfully and
its parse is the trimmed split. -/
theorem C7_witness :
    (∃ l, ParseFieldMappings ["a=b"] = Except.ok l) ∧
    ([⟨"a", "b"⟩] : List FieldMapping) = (["a=b"] : List String).map mappingOfRaw :=
  ⟨(C7_ParseFieldMappings.1 ["a=b"]).mpr (by decide),
   C7_ParseFieldMappings.2.1 ["a=b"] [⟨"a", "b"⟩] rfl⟩

/-- C5: for well-formed field values (at most one of date/text populated,
as the tagged-union data model guarantees), `fieldsEqual` is true iff both
are dates with equal dates or both are texts with equal strings; when the
tags differ or either side is absent — including absent vs absent — it is
false. -/
theorem C5_fieldsEqual : ∀ a b : ProjectField,
    (a.value.date = none ∨ a.value.text = none) →
    (b.value.date = none ∨ b.value.text = none) →
    ((fieldsEqual a b = true ↔
        (∃ d1 d2, a.value.date = some d1 ∧ b.value.date = some d2 ∧ d1 = d2) ∨
        (∃ t1 t2, a.value.text = some t1 ∧ b.value.text = some t2 ∧ t1 = t2)) ∧
      (a.value.date = none → a.value.text = none → fieldsEqual a b = false)) := by
  intro a b ha hb
  unfold fieldsEqual
  rcases had : a.value.date with _ | da <;> rcases hbd : b.value.date with _ | db <;>
    rcases hat : a.value.text with _ | ta <;> rcases hbt : b.value.text with _ | tb <;>
      simp_all

/-- Witness for C5 at concrete inputs: two equal dates compare equal, and
two wholly absent values compare not-equal. -/
theorem C5_witness :
    fieldsEqual ⟨"1", "f", ⟨some 7, none⟩⟩ ⟨"2", "g", ⟨some 7, none⟩⟩ = true ∧
    fieldsEqual ⟨"1", "f", ⟨none, none⟩⟩ ⟨"2", "g", ⟨none, none⟩⟩ = false := by
  constructor
  · exact (C5_fieldsEqual ⟨"1", "f", ⟨some 7, none⟩⟩ ⟨"2", "g", ⟨some 7, none⟩⟩
      (Or.inr rfl) (Or.inr rfl)).1.mpr (Or.inl ⟨7, 7, rfl, rfl, rfl⟩)
  · exact (C5_fieldsEqual ⟨"1", "f", ⟨none, none⟩⟩ ⟨"2", "g", ⟨none, none⟩⟩
      (Or.inl rfl) (Or.inl rfl)).2 rfl rfl

theorem applyFieldMappings_single (upd : String → String → ProjectField → Bool → Except String Unit)
    (dr : Bool) (tgt u : String) (sfs : List ProjectField)
    (tmap : String → Option ProjectField) (m : FieldMapping) :
    applyFieldMappings upd dr tgt u sfs tmap [m] =
      applyOneMapping upd dr tgt u tmap m sfs := by
  cases h : applyOneMapping upd dr tgt u tmap m sfs with
  | mk calls r => cases r <;> simp [applyFieldMappings, h]

theorem applyOneMapping_trace (upd : String → String → ProjectField → Bool → Except String Unit)
    (dr : Bool) (tgt u : String) (tmap : String → Option ProjectField) (m : FieldMapping) :
    ∀ sfs : List ProjectField,
      (applyOneMapping upd dr tgt u tmap m sfs).1 =
        match sfs.find? (triggersUpdate tmap m) with
        | some sf => [⟨tgt, u, candidateField m sf, dr⟩]
        | none => [] := by
  intro sfs
  induction sfs with
  | nil => rfl
  | cons sf rest ih =>
    by_cases hname : sf.name = m.sourceField
    · cases htm : tmap m.targetField with
      | none =>
        have htrig : triggersUpdate tmap m sf = true := by
          simp [triggersUpdate, hname, htm]
        rw [List.find?_cons_of_pos _ htrig]
        cases hu : upd tgt u (candidateField m sf) dr <;>
          simp [applyOneMapping, hname, htm, hu]
      | some ex =>
        cases heq : fieldsEqual ex (candidateField m sf) with
        | false =>
          have htrig : triggersUpdate tmap m sf = true := by
            simp [triggersUpdate, hname, htm, heq]
          rw [List.find?_cons_of_pos _ htrig]
          cases hu : upd tgt u (candidateField m sf) dr <;>
            simp [applyOneMapping, hname, htm, heq, hu]
        | true =>
          have htrig : triggersUpdate tmap m sf = false := by
            simp [triggersUpdate, hname, htm, heq]
          rw [List.find?_cons_of_neg _ (by simp [htrig])]
          simp [applyOneMapping, hname, htm, heq, ih]
    · have htrig : triggersUpdate tmap m sf = false := by
        simp [triggersUpdate, hname]
      rw [List.find?_cons_of_neg _ (by simp [htrig])]
      simp [applyOneMapping, hname, ih]

/-- C4, as stated, is false on the code: with duplicate source-field names,
when the first match's candidate equals the target's existing value the
inner loop continues scanning, and a later source field with the same name
triggers an update with its value.  Concretely: source fields
`[{s: date 1}, {s: date 2}]`, target already holding `{t: date 1}`, mapping
`s=t`: the first match is equal (so first-match-wins would do nothing),
yet an update with the second field's value `date 2` is performed. -/
theorem C4_counterexample :
    fieldsEqual ⟨"9", "t", ⟨some 1, none⟩⟩
        (candidateField ⟨"s", "t"⟩ ⟨"1", "s", ⟨some 1, none⟩⟩) = true ∧
    (applyFieldMappings okUpdate false "T" "u"
        [⟨"1", "s", ⟨some 1, none⟩⟩, ⟨"2", "s", ⟨some 2, none⟩⟩]
        (targetFieldLookup [⟨"9", "t", ⟨some 1, none⟩⟩]) [⟨"s", "t"⟩]).1
      = [⟨"T", "u", ⟨"", "t", ⟨some 2, none⟩⟩, false⟩] :=
  ⟨rfl, rfl⟩

/-- C4 (amended): for each mapping, the engine updates using the *first
source field whose name matches the mapping's source name and whose
candidate value is not already equal to the target's existing value*; name
matches whose value is equal are skipped and scanning continues, so later
duplicates can still trigger an update.  (First match by name wins
unconditionally only in the special case where it triggers.) -/
theorem C4_first_triggering_match : ∀ (upd : String → String → ProjectField → Bool → Except String Unit)
    (dr : Bool) (tgt u : String) (tmap : String → Option ProjectField)
    (m : FieldMapping) (sfs : List ProjectField),
    (applyFieldMappings upd dr tgt u sfs tmap [m]).1 =
      match sfs.find? (triggersUpdate tmap m) with
      | some sf => [⟨tgt, u, candidateField m sf, dr⟩]
      | none => [] := by
  intro upd dr tgt u tmap m sfs
  rw [applyFieldMappings_single]
  exact applyOneMapping_trace upd dr tgt u tmap m sfs

theorem find?_triggers_of_no_match (tmap : String → Option ProjectField) (m : FieldMapping) :
    ∀ sfs : List ProjectField,
      sfs.filter (fun f => f.name == m.sourceField) = [] →
      sfs.find? (triggersUpdate tmap m) = none := by
  intro sfs
  induction sfs with
  | nil => intro _; rfl
  | cons f rest ih =>
    intro hfil
    cases hf : (f.name == m.sourceField) with
    | true =>
      rw [List.filter_cons_of_pos (p := fun x : ProjectField => x.name == m.sourceField) hf] at hfil
      cases hfil
    | false =>
      rw [List.filter_cons_of_neg (p := fun x : ProjectField => x.name == m.sourceField) (by simp [hf])] at hfil
      have htrig : triggersUpdate tmap m f = false := by
        simp [triggersUpdate, hf]
      rw [List.find?_cons_of_neg _ (by simp [htrig])]
      exact ih hfil

theorem find?_triggers_of_unique (tmap : String → Option ProjectField) (m : FieldMapping) :
    ∀ (sfs : List ProjectField) (sf : ProjectField),
      sfs.filter (fun f => f.name == m.sourceField) = [sf] →
      sfs.find? (triggersUpdate tmap m) =
        if triggersUpdate tmap m sf then some sf else none := by
  intro sfs
  induction sfs with
  | nil => intro sf h; simp at h
  | cons f rest ih =>
    intro sf hfil
    cases hf : (f.name == m.sourceField) with
    | true =>
      rw [List.filter_cons_of_pos (p := fun x : ProjectField => x.name == m.sourceField) hf] at hfil
      injection hfil with h1 hrest
      subst h1
      cases htr : triggersUpdate tmap m f with
      | true => rw [List.find?_cons_of_pos _ htr]; simp [htr]
      | false =>
        rw [List.find?_cons_of_neg _ (by simp [htr])]
        rw [find?_triggers_of_no_match tmap m rest hrest]
        simp [htr]
    | false =>
      rw [List.filter_cons_of_neg (p := fun x : ProjectField => x.name == m.sourceField) (by simp [hf])] at hfil
      have htrig : triggersUpdate tmap m f = false := by
        simp [triggersUpdate, hf]
      rw [List.find?_cons_of_neg _ (by simp [htrig])]
      exact ih sf hfil

/-- C3: for an issue with exactly one source field of the mapped source
name, when the target (as looked up through the engine's target-field map)
already holds a field with the mapped target name whose value equals the
candidate, no update call is made for that mapping; when the existing value
differs, exactly one update call is made, carrying the candidate field with
the source value. -/
theorem C3_equality_skip : ∀ (upd : String → String → ProjectField → Bool → Except String Unit)
    (dr : Bool) (tgt u : String) (sfs tFields : List ProjectField)
    (m : FieldMapping) (sf ex : ProjectField),
    sfs.filter (fun f => f.name == m.sourceField) = [sf] →
    targetFieldLookup tFields m.targetField = some ex →
    ((fieldsEqual ex (candidateField m sf) = true →
        (applyFieldMappings upd dr tgt u sfs (targetFieldLookup tFields) [m]).1 = []) ∧
      (fieldsEqual ex (candidateField m sf) = false →
        (applyFieldMappings upd dr tgt u sfs (targetFieldLookup tFields) [m]).1
          = [⟨tgt, u, candidateField m sf, dr⟩])) := by
  intro upd dr tgt u sfs tFields m sf ex hfil hlook
  have hname : (sf.name == m.sourceField) = true := by
    have hmem : sf ∈ sfs.filter (fun f => f.name == m.sourceField) := by
      rw [hfil]; exact List.mem_singleton_self sf
    exact (List.mem_filter.mp hmem).2
  have hchar := C4_first_triggering_match upd dr tgt u (targetFieldLookup tFields) m sfs
  rw [find?_triggers_of_unique (targetFieldLookup tFields) m sfs sf hfil] at hchar
  constructor
  · intro heq
    have htrig : triggersUpdate (targetFieldLookup tFields) m sf = false := by
      simp [triggersUpdate, hname, hlook, heq]
    rw [hchar, htrig]
    simp
  · intro heq
    have htrig : triggersUpdate (targetFieldLookup tFields) m sf = true := by
      simp [triggersUpdate, hname, hlook, heq]
    rw [hchar, htrig]
    simp

/-- Witness for C3 at concrete inputs: with source `start = date 5` and
target `Start date = date 5` no call is made; with source `start = date 6`
exactly one call carrying `date 6` is made. -/
theorem C3_witness :
    (applyFieldMappings okUpdate false "T" "u" [⟨"1", "start", ⟨some 5, none⟩⟩]
        (targetFieldLookup [⟨"9", "Start date", ⟨some 5, none⟩⟩])
        [⟨"start", "Start date"⟩]).1 = [] ∧
    (applyFieldMappings okUpdate false "T" "u" [⟨"1", "start", ⟨some 6, none⟩⟩]
        (targetFieldLookup [⟨"9", "Start date", ⟨some 5, none⟩⟩])
        [⟨"start", "Start date"⟩]).1
      = [⟨"T", "u", ⟨"", "Start date", ⟨some 6, none⟩⟩, false⟩] := by
  constructor
  · exact (C3_equality_skip okUpdate false "T" "u" [⟨"1", "start", ⟨some 5, none⟩⟩]
      [⟨"9", "Start date", ⟨some 5, none⟩⟩] ⟨"start", "Start date"⟩
      ⟨"1", "start", ⟨some 5, none⟩⟩ ⟨"9", "Start date", ⟨some 5, none⟩⟩ rfl rfl).1 rfl
  · exact (C3_equality_skip okUpdate false "T" "u" [⟨"1", "start", ⟨some 6, none⟩⟩]
      [⟨"9", "Start date", ⟨some 5, none⟩⟩] ⟨"start", "Start date"⟩
      ⟨"1", "start", ⟨some 6, none⟩⟩ ⟨"9", "Start date", ⟨some 5, none⟩⟩ rfl rfl).2 rfl

/-- C1, as stated, is false on the code: `applyFieldMappings` returns the
wrapped update error and `processBatches` aborts the whole run with it, so
after issue `A`'s update fails, issue `B` is never attempted and the call
does not complete successfully.  Concretely, with a client whose update
always fails, the run over `[A, B]` produces only `A`'s update attempt and
returns the error. -/
theorem C1_counterexample :
    processBatches exClientC1 false "S" "T" ["A", "B"] [⟨"f", "g"⟩]
      = ([⟨"T", "A", ⟨"", "g", ⟨some 1, none⟩⟩, false⟩],
          Except.error "failed to update field for A: boom") ∧
    "B" ∉ (processBatches exClientC1 false "S" "T" ["A", "B"] [⟨"f", "g"⟩]).1.map
        UpdateCall.issueURL :=
  ⟨rfl, by decide⟩

/-- C1 (amended): if the update-field call fails for issue `A`, the engine
does *not* continue: remaining mappings for `A` are skipped, but the error
aborts the run, so issue `B` in the same batch is never attempted and
`SyncFields` returns the error instead of completing. -/
theorem C1_abort_on_update_failure : ∀ (c : EngineClient) (dryRun : Bool)
    (srcID tgtID A B : String) (mappings : List FieldMapping)
    (sa ta sb tb : List ProjectField) (e : String),
    c.getFieldValues srcID A = Except.ok sa →
    c.getFieldValues tgtID A = Except.ok ta →
    c.getFieldValues srcID B = Except.ok sb →
    c.getFieldValues tgtID B = Except.ok tb →
    (applyFieldMappings c.update dryRun tgtID A sa (targetFieldLookup ta) mappings).2
      = Except.error e →
    processBatches c dryRun srcID tgtID [A, B] mappings
      = ((applyFieldMappings c.update dryRun tgtID A sa (targetFieldLookup ta) mappings).1,
          Except.error e) := by
  intro c dryRun srcID tgtID A B mappings sa ta sb tb e h1 h2 h3 h4 h5
  cases happ : applyFieldMappings c.update dryRun tgtID A sa (targetFieldLookup ta) mappings with
  | mk calls r =>
    rw [happ] at h5
    simp only at h5
    subst h5
    simp [processBatches, processChunks, batchSize, getFieldValuesForBatch,
      h1, h2, h3, h4, processEntries, happ]

/-- Witness for C1's amended theorem at a concrete client whose update
always fails: the run over two issues returns the wrapped error after the
single update attempt for the first issue. -/
theorem C1_witness :
    processBatches exClientC1 false "S" "T" ["A", "B"] [⟨"f", "g"⟩]
      = ([⟨"T", "A", ⟨"", "g", ⟨some 1, none⟩⟩, false⟩],
          Except.error "failed to update field for A: boom") := by
  have h := C1_abort_on_update_failure exClientC1 false "S" "T" "A" "B" [⟨"f", "g"⟩]
      [⟨"1", "f", ⟨some 1, none⟩⟩] [] [⟨"1", "f", ⟨some 1, none⟩⟩] []
      "failed to update field for A: boom" rfl rfl rfl rfl rfl
  exact h.trans rfl

theorem applyOneMapping_dryRun (upd : String → String → ProjectField → Bool → Except String Unit)
    (dr : Bool) (tgt u : String) (tmap : String → Option ProjectField) (m : FieldMapping)
    (sfs : List ProjectField) (call : UpdateCall)
    (hc : call ∈ (applyOneMapping upd dr tgt u tmap m sfs).1) : call.dryRun = dr := by
  rw [applyOneMapping_trace] at hc
  cases h : sfs.find? (triggersUpdate tmap m) with
  | some sf =>
    rw [h] at hc
    simp only [List.mem_singleton] at hc
    rw [hc]
  | none =>
    rw [h] at hc
    simp at hc

theorem applyFieldMappings_dryRun (upd : String → String → ProjectField → Bool → Except String Unit)
    (dr : Bool) (tgt u : String) (sfs : List ProjectField)
    (tmap : String → Option ProjectField) :
    ∀ (mappings : List FieldMapping) (call : UpdateCall),
      call ∈ (applyFieldMappings upd dr tgt u sfs tmap mappings).1 → call.dryRun = dr := by
  intro mappings
  induction mappings with
  | nil => intro call hc; simp [applyFieldMappings] at hc
  | cons m ms ih =>
    intro call hc
    cases h : applyOneMapping upd dr tgt u tmap m sfs with
    | mk calls r =>
      cases r with
      | error e =>
        rw [show (applyFieldMappings upd dr tgt u sfs tmap (m :: ms)).1 = calls by
          simp [applyFieldMappings, h]] at hc
        exact applyOneMapping_dryRun upd dr tgt u tmap m sfs call (by rw [h]; exact hc)
      | ok _ =>
        rw [show (applyFieldMappings upd dr tgt u sfs tmap (m :: ms)).1
            = calls ++ (applyFieldMappings upd dr tgt u sfs tmap ms).1 by
          simp [applyFieldMappings, h]] at hc
        rcases List.mem_append.mp hc with hl | hr
        · exact applyOneMapping_dryRun upd dr tgt u tmap m sfs call (by rw [h]; exact hl)
        · exact ih call hr

theorem processEntries_dryRun (c : EngineClient) (dr : Bool) (tgtID : String)
    (mappings : List FieldMapping) :
    ∀ (entries : List (String × List ProjectField × List ProjectField)) (call : UpdateCall),
      call ∈ (processEntries c dr tgtID mappings entries).1 → call.dryRun = dr := by
  intro entries
  induction entries with
  | nil => intro call hc; simp [processEntries] at hc
  | cons entry rest ih =>
    obtain ⟨u, sf, tf⟩ := entry
    intro call hc
    cases h : applyFieldMappings c.update dr tgtID u sf (targetFieldLookup tf) mappings with
    | mk calls r =>
      cases r with
      | error e =>
        rw [show (processEntries c dr tgtID mappings ((u, sf, tf) :: rest)).1 = calls by
          simp [processEntries, h]] at hc
        exact applyFieldMappings_dryRun c.update dr tgtID u sf (targetFieldLookup tf)
          mappings call (by rw [h]; exact hc)
      | ok _ =>
        rw [show (processEntries c dr tgtID mappings ((u, sf, tf) :: rest)).1
            = calls ++ (processEntries c dr tgtID mappings rest).1 by
          simp [processEntries, h]] at hc
        rcases List.mem_append.mp hc with hl | hr
        · exact applyFieldMappings_dryRun c.update dr tgtID u sf (targetFieldLookup tf)
            mappings call (by rw [h]; exact hl)
        · exact ih call hr

theorem processChunks_dryRun (c : EngineClient) (dr : Bool) (srcID tgtID : String)
    (mappings : List FieldMapping) :
    ∀ (fuel : Nat) (issues : List String) (call : UpdateCall),
      call ∈ (processChunks c dr srcID tgtID mappings fuel issues).1 → call.dryRun = dr := by
  intro fuel
  induction fuel with
  | zero => intro issues call hc; simp [processChunks] at hc
  | succ fuel ih =>
    intro issues call hc
    cases issues with
    | nil => simp [processChunks] at hc
    | cons x xs =>
      cases hg : getFieldValuesForBatch c srcID tgtID ((x :: xs).take batchSize) with
      | error e =>
        rw [show (processChunks c dr srcID tgtID mappings (fuel + 1) (x :: xs)).1 = [] by
          simp [processChunks, hg]] at hc
        simp at hc
      | ok entries =>
        cases hp : processEntries c dr tgtID mappings entries with
        | mk calls r =>
          cases r with
          | error e =>
            rw [show (processChunks c dr srcID tgtID mappings (fuel + 1) (x :: xs)).1
                = calls by simp [processChunks, hg, hp]] at hc
            exact processEntries_dryRun c dr tgtID mappings entries call (by rw [hp]; exact hc)
          | ok _ =>
            rw [show (processChunks c dr srcID tgtID mappings (fuel + 1) (x :: xs)).1
                = calls ++ (processChunks c dr srcID tgtID mappings fuel
                    ((x :: xs).drop batchSize)).1 by
              simp [processChunks, hg, hp]] at hc
            rcases List.mem_append.mp hc with hl | hr
            · exact processEntries_dryRun c dr tgtID mappings entries call (by rw [hp]; exact hl)
            · exact ih ((x :: xs).drop batchSize) call hr

/-- C6: the engine forwards its `dryRun` flag on every update call it
makes, and the repository's `UpdateProjectField` with `dryRun = true`
sends no remote mutation and leaves the in-memory cache unchanged, so any
subsequent `GetProjectFieldValues` in the same run returns exactly what it
returned before the dry-run update. -/
theorem C6_dry_run :
    (∀ (c : EngineClient) (dryRun : Bool) (srcID tgtID : String)
        (issues : List String) (mappings : List FieldMapping) (call : UpdateCall),
        call ∈ (processBatches c dryRun srcID tgtID issues mappings).1 →
          call.dryRun = dryRun) ∧
    (∀ (remote : String → Except String ProjectV2)
        (mutate : MutationInput → Except String Unit) (st : ClientState)
        (pid url : String) (field : ProjectField),
        (UpdateProjectField remote mutate st pid url field true).2 = (st, []) ∧
        ∀ pid2 url2, GetProjectFieldValues remote
            (UpdateProjectField remote mutate st pid url field true).2.1 pid2 url2
          = GetProjectFieldValues remote st pid2 url2) := by
  constructor
  · intro c dryRun srcID tgtID issues mappings call hc
    exact processChunks_dryRun c dryRun srcID tgtID mappings issues.length issues call hc
  · intro remote mutate st pid url field
    have hst : (UpdateProjectField remote mutate st pid url field true).2 = (st, []) := by
      unfold UpdateProjectField
      repeat' split
      all_goals try rfl
      all_goals simp_all
      all_goals repeat' split
      all_goals rfl
    exact ⟨hst, fun pid2 url2 => by rw [hst]⟩

/-- Witness for C6 at a concrete client run with `dryRun = true`: the one
update call recorded in the trace carries `dryRun = true`. -/
theorem C6_witness :
    (⟨"T", "A", ⟨"", "g", ⟨some 1, none⟩⟩, true⟩ : UpdateCall).dryRun = true := by
  refine C6_dry_run.1 exClientC6 true "S" "T" ["A"] [⟨"f", "g"⟩] _ ?_
  decide

theorem batchesAux_nil (fuel : Nat) : batchesAux fuel [] = [] := by
  cases fuel <;> rfl

theorem batchesAux_flatten : ∀ (fuel : Nat) (issues : List String),
    issues.length ≤ fuel → (batchesAux fuel issues).flatten = issues := by
  intro fuel
  induction fuel with
  | zero =>
    intro issues h
    obtain rfl := List.length_eq_zero.mp (Nat.le_zero.mp h)
    rfl
  | succ fuel ih =>
    intro issues h
    cases issues with
    | nil => rfl
    | cons x xs =>
      simp only [batchesAux, List.flatten_cons]
      rw [ih ((x :: xs).drop batchSize) ?_, List.take_append_drop]
      have hlen : (x :: xs).length ≤ fuel + 1 := h
      simp only [List.length_drop, List.length_cons, batchSize] at *
      omega

theorem batchesAux_mem : ∀ (fuel : Nat) (issues : List String) (b : List String),
    b ∈ batchesAux fuel issues → b ≠ [] ∧ b.length ≤ batchSize := by
  intro fuel
  induction fuel with
  | zero => intro issues b hb; simp [batchesAux] at hb
  | succ fuel ih =>
    intro issues b hb
    cases issues with
    | nil => simp [batchesAux] at hb
    | cons x xs =>
      simp only [batchesAux] at hb
      rcases List.mem_cons.mp hb with rfl | hb2
      · refine ⟨by simp [batchSize], ?_⟩
        exact List.length_take_le batchSize (x :: xs)
      · exact ih _ b hb2

theorem batchesAux_getD : ∀ (fuel : Nat) (issues : List String) (i : Nat),
    i + 1 < (batchesAux fuel issues).length →
    ((batchesAux fuel issues).getD i []).length = batchSize := by
  intro fuel
  induction fuel with
  | zero => intro issues i h; simp [batchesAux] at h
  | succ fuel ih =>
    intro issues i h
    cases issues with
    | nil => simp [batchesAux] at h
    | cons x xs =>
      simp only [batchesAux] at h ⊢
      cases i with
      | zero =>
        simp only [List.length_cons] at h
        have hrec : batchesAux fuel ((x :: xs).drop batchSize) ≠ [] := by
          intro hnil
          rw [hnil] at h
          simp at h
        have hdrop : (x :: xs).drop batchSize ≠ [] := by
          intro hnil
          rw [hnil, batchesAux_nil] at hrec
          exact hrec rfl
        have hlen : batchSize < (x :: xs).length := by
          by_contra hle
          push_neg at hle
          exact hdrop (List.drop_eq_nil_of_le hle)
        simp only [List.getD_cons_zero, List.length_take]
        omega
      | succ i =>
        simp only [List.length_cons] at h
        simp only [List.getD_cons_succ]
        exact ih _ i (by omega)

theorem applyOneMapping_ok (upd : String → String → ProjectField → Bool → Except String Unit)
    (hupd : ∀ p u f d, upd p u f d = Except.ok ()) (dr : Bool) (tgt u : String)
    (tmap : String → Option ProjectField) (m : FieldMapping) :
    ∀ sfs : List ProjectField, (applyOneMapping upd dr tgt u tmap m sfs).2 = Except.ok () := by
  intro sfs
  induction sfs with
  | nil => rfl
  | cons sf rest ih =>
    by_cases hname : sf.name = m.sourceField
    · cases htm : tmap m.targetField with
      | none => simp [applyOneMapping, hname, htm, hupd]
      | some ex =>
        cases heq : fieldsEqual ex (candidateField m sf) with
        | true => simp [applyOneMapping, hname, htm, heq, ih]
        | false => simp [applyOneMapping, hname, htm, heq, hupd]
    · simp [applyOneMapping, hname, ih]

theorem applyFieldMappings_flatMap (upd : String → String → ProjectField → Bool → Except String Unit)
    (hupd : ∀ p u f d, upd p u f d = Except.ok ()) (dr : Bool) (tgt u : String)
    (sfs : List ProjectField) (tmap : String → Option ProjectField) :
    ∀ mappings : List FieldMapping,
      applyFieldMappings upd dr tgt u sfs tmap mappings
        = (mappings.flatMap (fun m => (applyOneMapping upd dr tgt u tmap m sfs).1),
            Except.ok ()) := by
  intro mappings
  induction mappings with
  | nil => rfl
  | cons m ms ih =>
    have hok := applyOneMapping_ok upd hupd dr tgt u tmap m sfs
    cases h : applyOneMapping upd dr tgt u tmap m sfs with
    | mk calls r =>
      rw [h] at hok
      simp only at hok
      subst hok
      simp [applyFieldMappings, h, ih]

theorem processEntries_map (c : EngineClient)
    (hupd : ∀ p u f d, c.update p u f d = Except.ok ()) (dr : Bool)
    (srcID tgtID : String) (mappings : List FieldMapping) :
    ∀ batch : List String,
      processEntries c dr tgtID mappings
          (batch.map (fun u => (u, fieldsOf c srcID u, fieldsOf c tgtID u)))
        = (batch.flatMap (fun u =>
            mappings.flatMap (fun m =>
              (applyOneMapping c.update dr tgtID u
                (targetFieldLookup (fieldsOf c tgtID u)) m (fieldsOf c srcID u)).1)),
            Except.ok ()) := by
  intro batch
  induction batch with
  | nil => rfl
  | cons u rest ih =>
    have happ := applyFieldMappings_flatMap c.update hupd dr tgtID u (fieldsOf c srcID u)
      (targetFieldLookup (fieldsOf c tgtID u)) mappings
    simp only [List.map_cons, List.flatMap_cons]
    simp [processEntries, happ, ih]

theorem getFieldValuesForBatch_ok (c : EngineClient) (srcID tgtID : String)
    (hfetch : ∀ pid u, ∃ v, c.getFieldValues pid u = Except.ok v) :
    ∀ batch : List String,
      getFieldValuesForBatch c srcID tgtID batch
        = Except.ok (batch.map (fun u => (u, fieldsOf c srcID u, fieldsOf c tgtID u))) := by
  intro batch
  induction batch with
  | nil => rfl
  | cons u rest ih =>
    obtain ⟨vs, hvs⟩ := hfetch srcID u
    obtain ⟨vt, hvt⟩ := hfetch tgtID u
    have h1 : fieldsOf c srcID u = vs := by simp [fieldsOf, hvs]
    have h2 : fieldsOf c tgtID u = vt := by simp [fieldsOf, hvt]
    simp [getFieldValuesForBatch, hvs, hvt, ih, h1, h2]

theorem processChunks_flatMap (c : EngineClient) (dr : Bool) (srcID tgtID : String)
    (mappings : List FieldMapping)
    (hfetch : ∀ pid u, ∃ v, c.getFieldValues pid u = Except.ok v)
    (hupd : ∀ p u f d, c.update p u f d = Except.ok ()) :
    ∀ (fuel : Nat) (issues : List String), issues.length ≤ fuel →
      processChunks c dr srcID tgtID mappings fuel issues
        = (issues.flatMap (fun u =>
            mappings.flatMap (fun m =>
              (applyOneMapping c.update dr tgtID u
                (targetFieldLookup (fieldsOf c tgtID u)) m (fieldsOf c srcID u)).1)),
            Except.ok ()) := by
  intro fuel
  induction fuel with
  | zero =>
    intro issues h
    obtain rfl := List.length_eq_zero.mp (Nat.le_zero.mp h)
    rfl
  | succ fuel ih =>
    intro issues h
    cases issues with
    | nil => rfl
    | cons x xs =>
      have hdroplen : ((x :: xs).drop batchSize).length ≤ fuel := by
        simp only [List.length_drop, List.length_cons, batchSize] at *
        omega
      simp only [processChunks, getFieldValuesForBatch_ok c srcID tgtID hfetch,
        processEntries_map c hupd dr srcID tgtID mappings,
        ih ((x :: xs).drop batchSize) hdroplen]
      rw [← List.flatMap_append, List.take_append_drop]

/-- C9: the engine partitions the working issue set into consecutive
batches of fixed size 10 (the last batch possibly shorter): the
concatenation of the batches equals the working set, every batch is
non-empty with at most 10 issues and every batch but the last has exactly
10; and on a run where every repository call succeeds the update-call
trace is the concatenation, in working-set order, of the per-issue traces,
each of which is the concatenation, in input order, of the per-mapping
traces. -/
theorem C9_batching :
    (∀ issues : List String, (batches issues).flatten = issues) ∧
    (∀ (issues : List String) (b : List String),
        b ∈ batches issues → b ≠ [] ∧ b.length ≤ batchSize) ∧
    (∀ (issues : List String) (i : Nat), i + 1 < (batches issues).length →
        ((batches issues).getD i []).length = batchSize) ∧
    (∀ (c : EngineClient) (dr : Bool) (srcID tgtID : String) (issues : List String)
        (mappings : List FieldMapping),
        (∀ pid u, ∃ v, c.getFieldValues pid u = Except.ok v) →
        (∀ p u f d, c.update p u f d = Except.ok ()) →
        processBatches c dr srcID tgtID issues mappings
          = (issues.flatMap (fun u =>
              mappings.flatMap (fun m =>
                (applyOneMapping c.update dr tgtID u
                  (targetFieldLookup (fieldsOf c tgtID u)) m (fieldsOf c srcID u)).1)),
              Except.ok ())) := by
  refine ⟨?_, ?_, ?_, ?_⟩
  · intro issues
    exact batchesAux_flatten issues.length issues le_rfl
  · intro issues b hb
    exact batchesAux_mem issues.length issues b hb
  · intro issues i h
    exact batchesAux_getD issues.length issues i h
  · intro c dr srcID tgtID issues mappings hfetch hupd
    exact processChunks_flatMap c dr srcID tgtID mappings hfetch hupd issues.length issues le_rfl

/-- Witness for C9 at a concrete all-successful client: two issues in one
batch produce exactly the two update calls in issue order. -/
theorem C9_witness :
    processBatches exClientC9 false "S" "T" ["A", "B"] [⟨"f", "g"⟩]
      = ([⟨"T", "A", ⟨"", "g", ⟨some 1, none⟩⟩, false⟩,
          ⟨"T", "B", ⟨"", "g", ⟨some 1, none⟩⟩, false⟩], Except.ok ()) := by
  have h := C9_batching.2.2.2 exClientC9 false "S" "T" ["A", "B"] [⟨"f", "g"⟩]
    (fun pid u => by by_cases hpid : pid = "S" <;> simp [exClientC9, hpid])
    (fun _ _ _ _ => rfl)
  exact h.trans rfl

theorem stringData_append (a b : String) : (a ++ b).data = a.data ++ b.data := by
  cases a
  cases b
  rfl

theorem stringAppend_assoc (a b c : String) : a ++ b ++ c = a ++ (b ++ c) := by
  cases a with
  | mk la =>
    cases b with
    | mk lb =>
      cases c with
      | mk lc =>
        show String.mk (la ++ lb ++ lc) = String.mk (la ++ (lb ++ lc))
        rw [List.append_assoc]

theorem parseURLHostPath_canonical (s : String) :
    parseURLHostPath ("https://github.com/" ++ s) = ("github.com", "/" ++ s) := by
  cases s with
  | mk l => rfl

theorem digitChar_toNat (d : Nat) (h : d < 10) : (Nat.digitChar d).toNat = 48 + d := by
  interval_cases d <;> rfl

theorem digitChar_isDigit (d : Nat) (h : d < 10) : (Nat.digitChar d).isDigit = true := by
  interval_cases d <;> decide

theorem digitChar_ne_slash (d : Nat) (h : d < 10) : Nat.digitChar d ≠ '/' := by
  interval_cases d <;> decide

theorem natDigitsAux_zero (fuel : Nat) : natDigitsAux fuel 0 = [] := by
  cases fuel <;> simp [natDigitsAux]

theorem natDigitsAux_cons (fuel n : Nat) (hn : n ≠ 0) :
    natDigitsAux (fuel + 1) n = Nat.digitChar (n % 10) :: natDigitsAux fuel (n / 10) := by
  simp [natDigitsAux, hn]

theorem natDigitsAux_digits : ∀ (fuel n : Nat), ∀ c ∈ natDigitsAux fuel n, c.isDigit = true := by
  intro fuel
  induction fuel with
  | zero => intro n c hc; simp [natDigitsAux] at hc
  | succ fuel ih =>
    intro n c hc
    by_cases hn : n = 0
    · simp [natDigitsAux, hn] at hc
    · rw [natDigitsAux_cons fuel n hn] at hc
      rcases List.mem_cons.mp hc with rfl | hc2
      · exact digitChar_isDigit _ (Nat.mod_lt _ (by norm_num))
      · exact ih _ c hc2

theorem digitsValue_append (l : List Char) (d : Char) :
    digitsValue (l ++ [d]) = 10 * digitsValue l + (d.toNat - 48) := by
  simp [digitsValue, List.foldl_append]

theorem digitsValue_natDigitsAux : ∀ (fuel n : Nat), n ≤ fuel →
    digitsValue ((natDigitsAux fuel n).reverse) = n := by
  intro fuel
  induction fuel with
  | zero =>
    intro n h
    obtain rfl : n = 0 := Nat.le_zero.mp h
    rfl
  | succ fuel ih =>
    intro n h
    by_cases hn : n = 0
    · subst hn; rfl
    · rw [natDigitsAux_cons fuel n hn, List.reverse_cons, digitsValue_append]
      have hdiv : n / 10 ≤ fuel := by
        have : n / 10 < n := Nat.div_lt_self (Nat.pos_of_ne_zero hn) (by norm_num)
        omega
      rw [ih (n / 10) hdiv, digitChar_toNat (n % 10) (Nat.mod_lt _ (by norm_num))]
      omega

theorem goAtoi_of_digits (l : List Char) (hne : l ≠ []) (hdig : ∀ c ∈ l, c.isDigit = true) :
    goAtoi (String.mk l) = some (Int.ofNat (digitsValue l)) := by
  obtain ⟨c, rest, rfl⟩ := List.exists_cons_of_ne_nil hne
  have hc : c.isDigit = true := hdig c (by simp)
  have hplus : ¬(c = '+') := by intro h; rw [h] at hc; exact absurd hc (by decide)
  have hminus : ¬(c = '-') := by intro h; rw [h] at hc; exact absurd hc (by decide)
  have hall : (c :: rest).all Char.isDigit = true := List.all_eq_true.mpr hdig
  unfold goAtoi digitsOf
  simp only [if_neg hplus, if_neg hminus]
  rw [if_neg (by simp), if_pos hall]
  rfl

theorem natRepr_data (n : Nat) (hn : n ≠ 0) :
    (natRepr n).data = (natDigitsAux n n).reverse := by
  unfold natRepr
  rw [if_neg hn]

theorem natRepr_digits (n : Nat) : ∀ c ∈ (natRepr n).data, c.isDigit = true := by
  by_cases hn : n = 0
  · subst hn
    intro c hc
    have h0 : (natRepr 0).data = ['0'] := rfl
    rw [h0] at hc
    obtain rfl : c = '0' := by simpa using hc
    decide
  · rw [natRepr_data n hn]
    intro c hc
    exact natDigitsAux_digits n n c (List.mem_reverse.mp hc)

theorem slash_not_mem_natRepr (n : Nat) : '/' ∉ (natRepr n).data := by
  intro h
  exact absurd (natRepr_digits n '/' h) (by decide)

theorem goAtoi_natRepr (n : Nat) : goAtoi (natRepr n) = some (Int.ofNat n) := by
  by_cases hn : n = 0
  · subst hn; rfl
  · have hne : (natDigitsAux n n).reverse ≠ [] := by
      obtain ⟨m, rfl⟩ : ∃ m, n = m + 1 := ⟨n - 1, by omega⟩
      rw [natDigitsAux_cons m (m + 1) (by omega)]
      simp
    have hdig : ∀ c ∈ (natDigitsAux n n).reverse, c.isDigit = true := fun c hc =>
      natDigitsAux_digits n n c (List.mem_reverse.mp hc)
    have hstr : natRepr n = String.mk ((natDigitsAux n n).reverse) := by
      unfold natRepr
      rw [if_neg hn]
    rw [hstr, goAtoi_of_digits _ hne hdig, digitsValue_natDigitsAux n n le_rfl]

theorem splitChar_ne_nil (sep : Char) : ∀ l : List Char, splitChar sep l ≠ [] := by
  intro l
  induction l with
  | nil => simp [splitChar]
  | cons c cs ih =>
    obtain ⟨p, ps, h⟩ := List.exists_cons_of_ne_nil ih
    simp only [splitChar, h]
    by_cases hc : c = sep <;> simp [hc]

theorem splitChar_not_mem (sep : Char) : ∀ l : List Char, sep ∉ l → splitChar sep l = [l] := by
  intro l
  induction l with
  | nil => intro _; rfl
  | cons c cs ih =>
    intro h
    have hc : ¬(c = sep) := by intro heq; exact h (by simp [heq])
    have hcs : sep ∉ cs := fun hm => h (by simp [hm])
    simp [splitChar, ih hcs, hc]

theorem splitChar_append (sep : Char) : ∀ (l1 l2 : List Char), sep ∉ l1 →
    splitChar sep (l1 ++ sep :: l2) = l1 :: splitChar sep l2 := by
  intro l1
  induction l1 with
  | nil =>
    intro l2 _
    obtain ⟨p, ps, h⟩ := List.exists_cons_of_ne_nil (splitChar_ne_nil sep l2)
    simp [splitChar, h]
  | cons c cs ih =>
    intro l2 h
    have hc : ¬(c = sep) := by intro heq; exact h (by simp [heq])
    have hcs : sep ∉ cs := fun hm => h (by simp [hm])
    simp [splitChar, ih l2 hcs, hc]

theorem dropWhile_slash_reverse (Q : List Char) (n : Nat) (hn : 0 < n) :
    ((Q ++ (natRepr n).data).reverse.dropWhile (· = '/')).reverse
      = Q ++ (natRepr n).data := by
  obtain ⟨m, rfl⟩ : ∃ m, n = m + 1 := ⟨n - 1, by omega⟩
  rw [natRepr_data (m + 1) (by omega)]
  rw [List.reverse_append, List.reverse_reverse]
  rw [natDigitsAux_cons m (m + 1) (by omega), List.cons_append]
  rw [List.dropWhile_cons_of_neg
    (by simpa using digitChar_ne_slash ((m + 1) % 10) (Nat.mod_lt _ (by norm_num)))]
  rw [← List.cons_append, ← natDigitsAux_cons m (m + 1) (by omega)]
  rw [List.reverse_append, List.reverse_reverse]

theorem dropWhile_slash_reverse_of_eq (X Q : List Char) (n : Nat) (hn : 0 < n)
    (hX : X = Q ++ (natRepr n).data) :
    (X.reverse.dropWhile (· = '/')).reverse = X := by
  subst hX
  exact dropWhile_slash_reverse Q n hn

theorem trimSlashes_canonical (t : OwnerType) (login : String) (n : Nat) (hn : 0 < n) :
    trimSlashes ("/" ++ (ownerToken t ++ ("/" ++ (login ++ ("/projects/" ++ natRepr n)))))
      = String.mk ((ownerToken t).data ++ '/' :: (login.data ++ '/' ::
          ("projects".data ++ '/' :: (natRepr n).data))) := by
  have hdata : ("/" ++ (ownerToken t ++ ("/" ++ (login ++ ("/projects/" ++ natRepr n))))).data
      = '/' :: ((ownerToken t).data ++ '/' :: (login.data ++ '/' ::
          ("projects".data ++ '/' :: (natRepr n).data))) := by
    simp only [stringData_append]
    simp [List.append_assoc]
  unfold trimSlashes
  rw [hdata]
  rw [List.dropWhile_cons_of_pos (by decide)]
  cases t with
  | org =>
    have htok : (ownerToken OwnerType.org).data = 'o' :: 'r' :: 'g' :: 's' :: [] := rfl
    rw [htok]
    simp only [List.cons_append, List.nil_append]
    rw [List.dropWhile_cons_of_neg (by decide)]
    apply congrArg String.mk
    exact dropWhile_slash_reverse_of_eq _
      ('o' :: 'r' :: 'g' :: 's' :: '/' :: (login.data ++
        ('/' :: 'p' :: 'r' :: 'o' :: 'j' :: 'e' :: 'c' :: 't' :: 's' :: ['/']))) n hn
      (by simp [List.append_assoc])
  | user =>
    have htok : (ownerToken OwnerType.user).data = 'u' :: 's' :: 'e' :: 'r' :: 's' :: [] := rfl
    rw [htok]
    simp only [List.cons_append, List.nil_append]
    rw [List.dropWhile_cons_of_neg (by decide)]
    apply congrArg String.mk
    exact dropWhile_slash_reverse_of_eq _
      ('u' :: 's' :: 'e' :: 'r' :: 's' :: '/' :: (login.data ++
        ('/' :: 'p' :: 'r' :: 'o' :: 'j' :: 'e' :: 'c' :: 't' :: 's' :: ['/']))) n hn
      (by simp [List.append_assoc])

theorem goSplit_canonical (t : OwnerType) (login : String) (n : Nat)
    (hlogin : '/' ∉ login.data) :
    goSplit '/' (String.mk ((ownerToken t).data ++ '/' :: (login.data ++ '/' ::
        ("projects".data ++ '/' :: (natRepr n).data))))
      = [ownerToken t, login, "projects", natRepr n] := by
  have htokns : '/' ∉ (ownerToken t).data := by cases t <;> decide
  show (splitChar '/' ((ownerToken t).data ++ '/' :: (login.data ++ '/' ::
      ("projects".data ++ '/' :: (natRepr n).data)))).map String.mk = _
  rw [splitChar_append '/' _ _ htokns, splitChar_append '/' _ _ hlogin,
    splitChar_append '/' _ _ (by decide), splitChar_not_mem '/' _ (slash_not_mem_natRepr n)]
  rfl

theorem ParseProjectURL_canonical (t : OwnerType) (login : String) (n : Nat)
    (hn : 0 < n) (hlogin : '/' ∉ login.data) :
    ParseProjectURL (canonicalURL t login n) = Except.ok ⟨t, login, Int.ofNat n⟩ := by
  have hassoc : canonicalURL t login n
      = "https://github.com/" ++ (ownerToken t ++ ("/" ++ (login ++ ("/projects/" ++ natRepr n)))) := by
    unfold canonicalURL
    simp [stringAppend_assoc]
  rw [hassoc]
  unfold ParseProjectURL
  simp only [parseURLHostPath_canonical]
  rw [trimSlashes_canonical t login n hn, goSplit_canonical t login n hlogin]
  cases t with
  | org =>
    simp only [ownerToken]
    rw [if_pos trivial, goAtoi_natRepr]
    simp
  | user =>
    simp only [ownerToken]
    rw [if_pos trivial, goAtoi_natRepr]
    simp

/-- C8, as stated, is false on the code: the project-number segment goes
through `strconv.Atoi`, which accepts zero and negative numbers, so the
parser does not enforce positivity: the URLs with project-number segments `0` and `-5`
both parse successfully instead of being rejected. -/
theorem C8_counterexample :
    ParseProjectURL "https://github.com/orgs/test/projects/0"
      = Except.ok ⟨OwnerType.org, "test", 0⟩ ∧
    ParseProjectURL "https://github.com/orgs/test/projects/-5"
      = Except.ok ⟨OwnerType.org, "test", -5⟩ :=
  ⟨rfl, rfl⟩

/-- C8 (amended): project-URL parsing requires host `github.com`, exactly
4 path segments, segment 1 in {`orgs`, `users`}, segment 3 literally
`projects`, and segment 4 parsing per `strconv.Atoi` as an optionally
signed base-10 integer — zero and negative project numbers are accepted at
parse time, not rejected.  Each of the four invalid-input classes (wrong
host, wrong segment count, unknown owner-type token, non-numeric project
number) fails with a distinct identifiable error, and parsing the
canonical URL built from any valid triple (owner type, slash-free login,
positive number) returns that triple. -/
theorem C8_ParseProjectURL :
    (∀ (t : OwnerType) (login : String) (n : Nat), 0 < n → '/' ∉ login.data →
        ParseProjectURL (canonicalURL t login n) = Except.ok ⟨t, login, Int.ofNat n⟩) ∧
    ParseProjectURL "https://gitlab.com/orgs/test/projects/123"
      = Except.error "not a GitHub URL" ∧
    ParseProjectURL "https://github.com/orgs/test/projects"
      = Except.error "invalid project URL format" ∧
    ParseProjectURL "https://github.com/wrong/test/projects/123"
      = Except.error "invalid owner type in URL: wrong" ∧
    ParseProjectURL "https://github.com/orgs/test/projects/abc"
      = Except.error "invalid project number: abc" ∧
    ["not a GitHub URL", "invalid project URL format",
      "invalid owner type in URL: wrong", "invalid project number: abc"].Nodup :=
  ⟨ParseProjectURL_canonical, rfl, rfl, rfl, rfl, by decide⟩

/-- Witness for C8's amended round-trip at a concrete triple. -/
theorem C8_witness :
    ParseProjectURL (canonicalURL OwnerType.org "testorg" 123)
      = Except.ok ⟨OwnerType.org, "testorg", Int.ofNat 123⟩ :=
  C8_ParseProjectURL.1 OwnerType.org "testorg" 123 (by decide) (by decide)
